import Mathlib

/-!
# Verification of the upload / convert / analyze pipeline

A shallow embedding, in Lean 4, of the core logic of the audio-receiver
backend (`backend/main.py`): the sequential filename allocator, the WAV
duration computation, the upload orchestration, the JSON extraction helper
`try_parse`, the single-retry analyze flow, and the score-field
normalization.  Python strings are modelled as `List Char`; Python ints as
`ℤ`; Python floats as exact rationals `ℚ` (a standard shallow model: the
claims under study only exercise decimal literals and truncation, where
rational arithmetic agrees with the float semantics).  Fallible operations
return `Option`; external effects (filesystem, ffmpeg, the GenAI client)
are modelled as explicit environment parameters.
-/

namespace AudioPipeline

/-! ## Python string primitives -/

/-- Whitespace recognized by Python's `str.strip()` (ASCII fragment). -/
def isPyWs (c : Char) : Bool :=
  c = ' ' || c = '\t' || c = '\n' || c = '\x0d' || c = '\x0b' || c = '\x0c'

/-- Python `s.strip()`: drop leading and trailing whitespace. -/
def pyStrip (s : List Char) : List Char :=
  ((s.dropWhile isPyWs).reverse.dropWhile isPyWs).reverse

/-- Whitespace skipped by Python's `json` scanner (`[ \t\n\r]`). -/
def isJsonWs (c : Char) : Bool :=
  c = ' ' || c = '\t' || c = '\n' || c = '\x0d'

/-- Skip JSON whitespace. -/
def skipJWs (s : List Char) : List Char := s.dropWhile isJsonWs

/-- Python `s.find(c)`: index of the first occurrence, if any
(Python returns `-1` for "none"; we use `Option`). -/
def pyFind (c : Char) : List Char → Option Nat
  | [] => none
  | x :: r => if x = c then some 0 else (pyFind c r).map (· + 1)

/-- Python `s.rfind(c)`: index of the last occurrence, if any. -/
def pyRFind (c : Char) (s : List Char) : Option Nat :=
  (pyFind c s.reverse).map (fun i => s.length - 1 - i)

/-- The three backticks opening/closing a fenced code block. -/
def fenceTicks : List Char := ['\x60', '\x60', '\x60']

/-- `s.startswith("```") and s.endswith("```")` from `try_parse`. -/
def fenceWrapped (s : List Char) : Bool :=
  decide (s.take 3 = fenceTicks) && decide (s.drop (s.length - 3) = fenceTicks)

/-- Worker for Python `str.splitlines()` (line breaks `\n`, `\r`, `\r\n`). -/
def splitlinesAux : List Char → List Char → List (List Char)
  | [], acc => if acc = [] then [] else [acc.reverse]
  | '\x0d' :: '\n' :: r, acc => acc.reverse :: splitlinesAux r []
  | '\x0d' :: r, acc => acc.reverse :: splitlinesAux r []
  | '\n' :: r, acc => acc.reverse :: splitlinesAux r []
  | c :: r, acc => splitlinesAux r (c :: acc)

/-- Python `s.splitlines()`. -/
def splitlinesPy (s : List Char) : List (List Char) := splitlinesAux s []

/-- Python `"\n".join(lines)`. -/
def joinNl : List (List Char) → List Char
  | [] => []
  | [l] => l
  | l :: ls => l ++ '\n' :: joinNl ls

/-- Split on `'\n'` only (specification-side companion of `splitlinesPy`;
always returns a nonempty list, one chunk per line). -/
def splitNl : List Char → List (List Char)
  | [] => [[]]
  | c :: r =>
    if c = '\n' then [] :: splitNl r
    else
      match splitNl r with
      | [] => [[c]]
      | l :: ls => (c :: l) :: ls

/-- Prepend characters onto the first chunk of a chunk list (helper for
reasoning about `splitlinesAux`'s accumulator). -/
def consHead (a : List Char) : List (List Char) → List (List Char)
  | [] => [a]
  | l :: ls => (a ++ l) :: ls

/-- Numeric value of a list of decimal digit characters. -/
def natOfDigits (ds : List Char) : Nat :=
  ds.foldl (fun a c => 10 * a + (c.toNat - 48)) 0

/-- Decimal digits of a natural number (fuel-driven so that it is
structurally recursive and kernel-evaluable). -/
def natDigitsAux : Nat → Nat → List Char
  | 0, _ => []
  | _, 0 => []
  | fuel + 1, n => natDigitsAux fuel (n / 10) ++ [Char.ofNat (48 + n % 10)]

/-- Python `str(n)` for a natural number. -/
def natToChars (n : Nat) : List Char :=
  if n = 0 then ['0'] else natDigitsAux (n + 1) n

/-- Python `str(i)` / f-string rendering of an integer. -/
def intToChars (i : ℤ) : List Char :=
  if i < 0 then '-' :: natToChars (-i).toNat else natToChars i.toNat

/-! ## JSON values and `json.loads`

JSON numbers carry the Python int/float distinction; floats are modelled
as exact rationals. -/

inductive JsonVal : Type where
  | jnull : JsonVal
  | jbool (b : Bool) : JsonVal
  | jint (n : ℤ) : JsonVal
  | jfloat (q : ℚ) : JsonVal
  | jstr (s : List Char) : JsonVal
  | jarr (xs : List JsonVal) : JsonVal
  | jobj (m : List (List Char × JsonVal)) : JsonVal

/-- Association-list model of a Python `dict` of JSON values: assignment
keeps the position of an existing key and appends a new key at the end. -/
def jupdate (k : List Char) (v : JsonVal) : List (List Char × JsonVal) → List (List Char × JsonVal)
  | [] => [(k, v)]
  | (k', v') :: rest => if k' = k then (k, v) :: rest else (k', v') :: jupdate k v rest

/-- `dict.get`-style lookup. -/
def jlookup (k : List Char) : List (List Char × JsonVal) → Option JsonVal
  | [] => none
  | (k', v) :: rest => if k' = k then some v else jlookup k rest

/-- Value of a hexadecimal digit. -/
def hexVal? (c : Char) : Option Nat :=
  if '0' ≤ c ∧ c ≤ '9' then some (c.toNat - 48)
  else if 'a' ≤ c ∧ c ≤ 'f' then some (c.toNat - 87)
  else if 'A' ≤ c ∧ c ≤ 'F' then some (c.toNat - 55)
  else none

/-- Single-character JSON string escapes. -/
def escChar? (c : Char) : Option Char :=
  if c = '"' then some '"'
  else if c = '\\' then some '\\'
  else if c = '/' then some '/'
  else if c = 'b' then some '\x08'
  else if c = 'f' then some '\x0c'
  else if c = 'n' then some '\n'
  else if c = 'r' then some '\x0d'
  else if c = 't' then some '\t'
  else none

/-- Body of a JSON string (after the opening quote): returns the decoded
characters and the remaining input after the closing quote.  Python's
strict decoder rejects raw control characters and unknown escapes;
`\uXXXX` is decoded code-unit-wise (surrogate pairing is not modelled). -/
def parseJStr : List Char → Option (List Char × List Char)
  | [] => none
  | '"' :: r => some ([], r)
  | '\\' :: 'u' :: h1 :: h2 :: h3 :: h4 :: r =>
    match hexVal? h1, hexVal? h2, hexVal? h3, hexVal? h4 with
    | some a, some b, some c, some d =>
      (parseJStr r).map (fun p => (Char.ofNat (4096 * a + 256 * b + 16 * c + d) :: p.1, p.2))
    | _, _, _, _ => none
  | '\\' :: e :: r =>
    match escChar? e with
    | some c => (parseJStr r).map (fun p => (c :: p.1, p.2))
    | none => none
  | c :: r =>
    if c.toNat < 32 then none
    else (parseJStr r).map (fun p => (c :: p.1, p.2))

/-- `q * 10 ^ e` for a signed exponent (written on the numerator and
denominator directly, so that it evaluates by kernel reduction). -/
def mulTenPow (q : ℚ) (e : ℤ) : ℚ :=
  if 0 ≤ e then Rat.divInt (q.num * ((10 ^ e.toNat : ℕ) : ℤ)) (q.den : ℤ)
  else Rat.divInt q.num ((q.den * 10 ^ (-e).toNat : ℕ) : ℤ)

/-- JSON number literal, mirroring the decoder's `NUMBER_RE`
(`-?(0|[1-9]\d*)(\.\d+)?([eE][-+]?\d+)?`, longest match; a malformed
fraction or exponent is simply not consumed).  Yields `jint` when neither
fraction nor exponent is present, `jfloat` otherwise. -/
def parseNum (s : List Char) : Option (JsonVal × List Char) :=
  let (neg, s1) := match s with | '-' :: r => (true, r) | _ => (false, s)
  let ip? : Option (List Char × List Char) :=
    match s1 with
    | '0' :: r => some (['0'], r)
    | c :: r =>
      if c.isDigit then some ((c :: r).takeWhile Char.isDigit, (c :: r).dropWhile Char.isDigit)
      else none
    | [] => none
  match ip? with
  | none => none
  | some (ip, s2) =>
    let (fr, s3) : List Char × List Char :=
      match s2 with
      | '.' :: r =>
        let fds := r.takeWhile Char.isDigit
        if fds = [] then ([], s2) else (fds, r.dropWhile Char.isDigit)
      | _ => ([], s2)
    let (ex, s4) : Option ℤ × List Char :=
      match s3 with
      | e :: r =>
        if e = 'e' ∨ e = 'E' then
          let (eneg, r2) : Bool × List Char :=
            match r with
            | '+' :: rr => (false, rr)
            | '-' :: rr => (true, rr)
            | _ => (false, r)
          let eds := r2.takeWhile Char.isDigit
          if eds = [] then (none, s3)
          else (some (if eneg then -(natOfDigits eds : ℤ) else (natOfDigits eds : ℤ)),
                r2.dropWhile Char.isDigit)
        else (none, s3)
      | [] => (none, s3)
    let mant : ℤ := ((natOfDigits ip * 10 ^ fr.length + natOfDigits fr : ℕ) : ℤ)
    let mantS : ℤ := if neg then -mant else mant
    match ex with
    | none =>
      if fr = [] then some (.jint mantS, s4)
      else some (.jfloat (mulTenPow (mantS : ℚ) (-(fr.length : ℤ))), s4)
    | some e => some (.jfloat (mulTenPow (mantS : ℚ) (e - (fr.length : ℤ))), s4)

/-- Parsing context: what encloses the value currently being parsed. -/
inductive JCtx : Type where
  | arr (acc : List JsonVal) : JCtx
  | obj (acc : List (List Char × JsonVal)) (key : List Char) : JCtx

/-- One-pass JSON reader (fuel-driven small-step machine, so that it is
structurally recursive and kernel-evaluable).  `none` mode expects a value
at the (already whitespace-skipped) input; `some v` mode has just finished
the value `v` and continues the enclosing context on the stack. -/
def parseRun : Nat → List JCtx → Option JsonVal → List Char → Option (JsonVal × List Char)
  | 0, _, _, _ => none
  | fuel + 1, stack, none, s =>
    match s with
    | '\x7b' :: r =>
      match skipJWs r with
      | '\x7d' :: r2 => parseRun fuel stack (some (.jobj [])) r2
      | '"' :: r2 =>
        match parseJStr r2 with
        | some (key, r3) =>
          match skipJWs r3 with
          | ':' :: r4 => parseRun fuel (.obj [] key :: stack) none (skipJWs r4)
          | _ => none
        | none => none
      | _ => none
    | '[' :: r =>
      match skipJWs r with
      | ']' :: r2 => parseRun fuel stack (some (.jarr [])) r2
      | r2 => parseRun fuel (.arr [] :: stack) none r2
    | '"' :: r =>
      match parseJStr r with
      | some (cs, r2) => parseRun fuel stack (some (.jstr cs)) r2
      | none => none
    | 't' :: 'r' :: 'u' :: 'e' :: r => parseRun fuel stack (some (.jbool true)) r
    | 'f' :: 'a' :: 'l' :: 's' :: 'e' :: r => parseRun fuel stack (some (.jbool false)) r
    | 'n' :: 'u' :: 'l' :: 'l' :: r => parseRun fuel stack (some .jnull) r
    | _ =>
      match parseNum s with
      | some (v, r) => parseRun fuel stack (some v) r
      | none => none
  | fuel + 1, stack, some v, s =>
    match stack with
    | [] => some (v, s)
    | .arr acc :: st =>
      match skipJWs s with
      | ',' :: r => parseRun fuel (.arr (v :: acc) :: st) none (skipJWs r)
      | ']' :: r => parseRun fuel st (some (.jarr (v :: acc).reverse)) r
      | _ => none
    | .obj acc key :: st =>
      match skipJWs s with
      | ',' :: r =>
        match skipJWs r with
        | '"' :: r2 =>
          match parseJStr r2 with
          | some (key2, r3) =>
            match skipJWs r3 with
            | ':' :: r4 => parseRun fuel (.obj (jupdate key v acc) key2 :: st) none (skipJWs r4)
            | _ => none
          | none => none
        | _ => none
      | '\x7d' :: r => parseRun fuel st (some (.jobj (jupdate key v acc))) r
      | _ => none

/-- Python `json.loads`: skip surrounding whitespace, read one value,
require the input to be exhausted. -/
def json_loads (s : List Char) : Option JsonVal :=
  match parseRun (2 * s.length + 8) [] none (skipJWs s) with
  | some (v, rest) => if skipJWs rest = [] then some v else none
  | none => none

/-! ## `try_parse`: JSON extraction from model output -/

/-- The `s[start:end+1]` fallback of `try_parse`: the substring from the
first `'{'` to the last `'}'`, provided both exist and the last `'}'`
comes strictly after the first `'{'`. -/
def braceSlice (s : List Char) : Option (List Char) :=
  match pyFind '\x7b' s, pyRFind '\x7d' s with
  | some start, some stop =>
    if start < stop then some ((s.drop start).take (stop + 1 - start)) else none
  | _, _ => none

/-- The preprocessing of `try_parse`: `s.strip()`, then, when the result
is wrapped in triple backticks, `"\n".join(s.splitlines()[1:-1])`. -/
def unfenced (s : List Char) : List Char :=
  let s1 := pyStrip s
  if fenceWrapped s1 then joinNl (((splitlinesPy s1).drop 1).dropLast) else s1

/-- `try_parse` from `analyze_with_genai`: reject empty input, strip,
unwrap a fenced code block by dropping its first and last line, attempt a
direct parse, and fall back to the first-`{`-to-last-`}` substring. -/
def try_parse (s : List Char) : Option JsonVal :=
  if s = [] then none
  else
    match json_loads (unfenced s) with
    | some v => some v
    | none =>
      match braceSlice (unfenced s) with
      | some sub => json_loads sub
      | none => none

/-- A model answer wrapped in a fenced code block with an info tag:
```` ```tag\n<body>\n``` ````. -/
def fenceBlock (tag body : List Char) : List Char :=
  fenceTicks ++ tag ++ '\n' :: body ++ '\n' :: fenceTicks

/-! ## Score normalization (`int(float(val))` on selected fields) -/

/-- Truncation toward zero, the behaviour of Python `int()` on a float:
the integer part of `|q|`, carrying the sign of `q`. -/
def ratTrunc (q : ℚ) : ℤ := q.num.sign * (q.num.natAbs / q.den : ℕ)

/-- Python `float(s)` on a string: optional surrounding whitespace and
sign, then `digits[.digits][e[±]digits]`, `.digits`, or `digits.`
(the non-finite spellings and digit underscores are not modelled). -/
def parsePyFloat (s : List Char) : Option ℚ :=
  let t := pyStrip s
  let (neg, t1) := match t with
    | '-' :: r => (true, r)
    | '+' :: r => (false, r)
    | _ => (false, t)
  let ip := t1.takeWhile Char.isDigit
  let t2 := t1.dropWhile Char.isDigit
  let (fr, t3) : List Char × List Char :=
    match t2 with
    | '.' :: r => (r.takeWhile Char.isDigit, r.dropWhile Char.isDigit)
    | _ => ([], t2)
  if ip = [] ∧ fr = [] then none
  else
    let (ex, t4) : Option ℤ × List Char :=
      match t3 with
      | e :: r =>
        if e = 'e' ∨ e = 'E' then
          let (eneg, r2) : Bool × List Char :=
            match r with
            | '+' :: rr => (false, rr)
            | '-' :: rr => (true, rr)
            | _ => (false, r)
          let eds := r2.takeWhile Char.isDigit
          if eds = [] then (none, t3)
          else (some (if eneg then -(natOfDigits eds : ℤ) else (natOfDigits eds : ℤ)),
                r2.dropWhile Char.isDigit)
        else (none, t3)
      | [] => (none, t3)
    match ex, t4 with
    | some e, [] =>
      let mant : ℤ := ((natOfDigits ip * 10 ^ fr.length + natOfDigits fr : ℕ) : ℤ)
      some (mulTenPow ((if neg then -mant else mant : ℤ) : ℚ) (e - (fr.length : ℤ)))
    | none, [] =>
      let mant : ℤ := ((natOfDigits ip * 10 ^ fr.length + natOfDigits fr : ℕ) : ℤ)
      some (mulTenPow ((if neg then -mant else mant : ℤ) : ℚ) (-(fr.length : ℤ)))
    | _, _ => none

/-- Python `int(float(val))` on a JSON value: ints and floats truncate,
booleans coerce to 0/1, numeric strings parse then truncate; `None`,
lists and dicts make `float()` raise, modelled as `none`. -/
def intFloat : JsonVal → Option ℤ
  | .jint n => some n
  | .jfloat q => some (ratTrunc q)
  | .jbool b => some (if b then 1 else 0)
  | .jstr s => (parsePyFloat s).map ratTrunc
  | .jnull => none
  | .jarr _ => none
  | .jobj _ => none

/-- The `"scores"` key. -/
def scoresKey : List Char := "scores".toList

/-- The `"fluency"` key. -/
def fluencyKey : List Char := "fluency".toList

/-- The `"confidence"` key. -/
def confidenceKey : List Char := "confidence".toList

/-- The `"keyword_coverage_pct"` key. -/
def kcpKey : List Char := "keyword_coverage_pct".toList

/-- The `"filler_rate_per_min"` key (read but deliberately not coerced). -/
def fillerRateKey : List Char := "filler_rate_per_min".toList

/-- The fields coerced by the normalization loop, in source order. -/
def scoreKeys : List (List Char) := [fluencyKey, confidenceKey, kcpKey]

/-- The `for key in [...]` loop of the normalization block.  Mutation is
in place, and the first coercion failure raises out of the loop: the
result is the dict as mutated so far, paired with `false` when an
exception escaped. -/
def coerceLoop : List (List Char) → List (List Char × JsonVal) →
    List (List Char × JsonVal) × Bool
  | [], sm => (sm, true)
  | k :: ks, sm =>
    match jlookup k sm with
    | none => coerceLoop ks sm
    | some .jnull => coerceLoop ks sm
    | some v =>
      match intFloat v with
      | some n => coerceLoop ks (jupdate k (.jint n) sm)
      | none => (sm, false)

/-- The whole `try: ... except: pass` normalization block.  When
`parsed["scores"]` is a dict, the loop mutates that very dict object, so
coercions made before an exception persist; when `"scores"` is absent the
loop runs on a fresh empty dict (it cannot fail there) and the final
`parsed["scores"] = scores` inserts it; a non-dict `"scores"` value makes
`scores.get` raise before any mutation; a non-dict `parsed` makes
`parsed.get` raise immediately. -/
def normalizeScores : JsonVal → JsonVal
  | .jobj m =>
    match jlookup scoresKey m with
    | some (.jobj sm) => .jobj (jupdate scoresKey (.jobj (coerceLoop scoreKeys sm).1) m)
    | some _ => .jobj m
    | none =>
      let r := coerceLoop scoreKeys []
      if r.2 then .jobj (jupdate scoresKey (.jobj r.1) m) else .jobj m
  | v => v

/-- Observer: the value of field `k` inside the `"scores"` dict of a
parsed object (used to state properties of normalization). -/
def scoreField (j : JsonVal) (k : List Char) : Option JsonVal :=
  match j with
  | .jobj m =>
    match jlookup scoresKey m with
    | some (.jobj sm) => jlookup k sm
    | _ => none
  | _ => none

/-- Field `k` of `sm` does not make the coercion `int(float(val))` raise:
it is absent, `null`, or coercible. -/
def keyCoerces (k : List Char) (sm : List (List Char × JsonVal)) : Prop :=
  jlookup k sm = none ∨ jlookup k sm = some .jnull ∨
    ∃ v n, jlookup k sm = some v ∧ intFloat v = some n

/-- Observer: top-level field `k` of a parsed object. -/
def objField (j : JsonVal) (k : List Char) : Option JsonVal :=
  match j with
  | .jobj m => jlookup k m
  | _ => none

/-! ## Sequential filename allocator -/

/-- The on-disk `.counter` file: absent, unreadable, or holding text. -/
inductive CounterFile : Type where
  | absent : CounterFile
  | unreadable : CounterFile
  | holds (content : List Char) : CounterFile
deriving DecidableEq

/-- Python `int(s)` on an already-stripped string: optional sign then at
least one decimal digit (digit underscores are not modelled). -/
def pyInt? (s : List Char) : Option ℤ :=
  match s with
  | '+' :: ds => if ds ≠ [] ∧ ds.all Char.isDigit then some (natOfDigits ds : ℤ) else none
  | '-' :: ds => if ds ≠ [] ∧ ds.all Char.isDigit then some (-(natOfDigits ds : ℤ)) else none
  | ds => if ds ≠ [] ∧ ds.all Char.isDigit then some (natOfDigits ds : ℤ) else none

/-- `_load_counter`: read `int(content.strip() or 0)`, treating a missing
file, a read failure, or unparseable text as `0` (the `except` clause). -/
def load_counter : CounterFile → ℤ
  | .absent => 0
  | .unreadable => 0
  | .holds content =>
    let t := pyStrip content
    if t = [] then 0 else (pyInt? t).getD 0

/-- Last path component (`Path(p).name`, simplified to splitting on `/`). -/
def pathName (p : List Char) : List Char :=
  (p.reverse.takeWhile (· ≠ '/')).reverse

/-- `Path(p).suffix`: the extension from the last dot of the name, empty
for names with no dot, a leading dot only, or a trailing dot. -/
def pySuffix (p : List Char) : List Char :=
  let name := pathName p
  match pyRFind '.' name with
  | none => []
  | some i => if 0 < i ∧ i < name.length - 1 then name.drop i else []

/-- `Path(p).stem`: the name with `pySuffix` removed. -/
def pyStem (p : List Char) : List Char :=
  let name := pathName p
  match pyRFind '.' name with
  | none => name
  | some i => if 0 < i ∧ i < name.length - 1 then name.take i else name

/-- `Path(orig_name).suffix or ".bin"`. -/
def extOf (orig : List Char) : List Char :=
  let sfx := pySuffix orig
  if sfx = [] then ".bin".toList else sfx

/-- The `.wav` extension. -/
def wavExt : List Char := ".wav".toList

/-- In-memory counter plus the persisted `.counter` file. -/
structure AllocState : Type where
  counter : ℤ
  file : CounterFile
deriving DecidableEq

/-- `_safe_filename`: under the lock, increment the counter, persist it
(`_save_counter`, whose write errors are swallowed; a successful write is
modelled), and return `f"{counter}{ext}"`. -/
def safe_filename (orig : List Char) (st : AllocState) : List Char × AllocState :=
  let c := st.counter + 1
  (intToChars c ++ extOf orig, ⟨c, .holds (intToChars c)⟩)

/-- A sequence of allocation calls, threading the allocator state. -/
def allocRun : List (List Char) → AllocState → List (List Char) × AllocState
  | [], st => ([], st)
  | o :: os, st =>
    let p := safe_filename o st
    let r := allocRun os p.2
    (p.1 :: r.1, r.2)

/-! ## WAV duration and the upload endpoint -/

/-- The header data `wave.open` yields for a readable PCM WAV file. -/
structure WavHeader : Type where
  nframes : ℕ
  framerate : ℕ
deriving DecidableEq

/-- `get_wav_duration_seconds`: `frames / float(rate)`, with an explicit
`0.0` result when the header's sample rate is zero. -/
def get_wav_duration_seconds (h : WavHeader) : ℚ :=
  if h.framerate = 0 then 0 else (h.nframes : ℚ) / (h.framerate : ℚ)

/-- Round half to even (the behaviour of Python `round` on ties),
computed on the numerator and denominator. -/
def bankersRound (q : ℚ) : ℤ :=
  let f := q.num.fdiv (q.den : ℤ)
  let twice : ℤ := 2 * (q.num - f * (q.den : ℤ))
  if twice < (q.den : ℤ) then f
  else if (q.den : ℤ) < twice then f + 1
  else if 2 ∣ f then f else f + 1

/-- Python `round(q, 3)`. -/
def pyRound3 (q : ℚ) : ℚ := Rat.divInt (bankersRound (mulTenPow q 3)) 1000

/-- The external outcomes one `upload_audio` request can encounter:
whether the byte write succeeds, whether ffmpeg succeeds, what (if
anything) `wave.open` can read back, and whether the final unlink of the
original file succeeds. -/
structure UploadEnv : Type where
  writeOk : Bool
  convertOk : Bool
  wavRead : Option WavHeader
  unlinkOk : Bool
deriving DecidableEq

/-- Terminal outcome of `upload_audio`. -/
inductive UploadResult : Type where
  | httpError (code : ℕ) : UploadResult
  | ok (wav_filename : List Char) (duration_seconds : Option ℚ) : UploadResult
deriving DecidableEq

/-- Add a file name to the stored set (ffmpeg `-y` overwrites, so a
pre-existing name is kept in place). -/
def fsAdd (fs : List (List Char)) (n : List Char) : List (List Char) :=
  if n ∈ fs then fs else fs ++ [n]

/-- `upload_audio`: allocate a name, save the bytes, convert to
`{stem}.wav`, compute the duration (degrading to `None`), delete the
original upload ignoring failures, and answer with the wav name and the
rounded duration.  Returns the result, the storage contents, and the
allocator state. -/
def upload_audio (orig : List Char) (env : UploadEnv) (st : AllocState)
    (fs : List (List Char)) : UploadResult × List (List Char) × AllocState :=
  if orig = [] then (.httpError 400, fs, st)
  else
    let p := safe_filename orig st
    let in_name := p.1
    let st' := p.2
    if env.writeOk = false then (.httpError 500, fs, st')
    else
      let fs1 := fsAdd fs in_name
      let out_name := pyStem in_name ++ wavExt
      if env.convertOk = false then (.httpError 500, fs1.erase in_name, st')
      else
        let fs2 := fsAdd fs1 out_name
        let duration := env.wavRead.map get_wav_duration_seconds
        let fs3 := if env.unlinkOk then fs2.erase in_name else fs2
        (.ok out_name (duration.map pyRound3), fs3, st')

/-! ## The analyze endpoint -/

/-- A stored file with its modification time. -/
structure StoredFile : Type where
  name : List Char
  mtime : ℤ
deriving DecidableEq

/-- `endswith` test for the `*.wav` glob. -/
def isWavName (n : List Char) : Bool :=
  decide (n.drop (n.length - 4) = wavExt)

/-- Stable descending insertion by `mtime` (the behaviour of
`sorted(..., reverse=True)`: ties keep their original order). -/
def insertDesc (x : StoredFile) : List StoredFile → List StoredFile
  | [] => [x]
  | y :: ys => if x.mtime < y.mtime then y :: insertDesc x ys else x :: y :: ys

/-- `sorted(files, key=mtime, reverse=True)`. -/
def sortByMtimeDesc (l : List StoredFile) : List StoredFile :=
  l.foldr insertDesc []

/-- Outcome of resolving the target wav file. -/
inductive ResolveResult : Type where
  | notFound404 : ResolveResult
  | okFile (name : List Char) : ResolveResult
deriving DecidableEq

/-- `wavs[0]` after the descending sort, or 404 when no `.wav` exists. -/
def pickLatestWav (storage : List StoredFile) : ResolveResult :=
  match sortByMtimeDesc (storage.filter (fun f => isWavName f.name)) with
  | [] => .notFound404
  | f :: _ => .okFile f.name

/-- File resolution at the top of `analyze_with_genai`: a falsy
`wav_filename` (absent, `null`, or the empty string — `if not
wav_filename`) selects the most recently modified `.wav`; otherwise the
named file must exist. -/
def resolveWav (wav_filename : Option (List Char)) (storage : List StoredFile) :
    ResolveResult :=
  match wav_filename with
  | none => pickLatestWav storage
  | some [] => pickLatestWav storage
  | some n =>
    if storage.any (fun f => decide (f.name = n)) then .okFile n else .notFound404

/-- One content part of a GenAI request. -/
inductive GenPart : Type where
  | text (s : List Char) : GenPart
  | audio (ref : ℕ) : GenPart

/-- A `generate_content` call, as the list of its content parts. -/
structure GenCall : Type where
  contents : List GenPart

/-- The stricter instruction used for the single retry. -/
def retryPrompt : List Char :=
  ("ONLY OUTPUT A SINGLE JSON OBJECT following the schema. " ++
   "Do not add ANY explanatory text.").toList

/-- The soft-failure message. -/
def unparsedMsg : List Char := "Model did not return valid JSON".toList

/-- Terminal outcome of the parse/retry/normalize phase. -/
inductive AnalyzeResp : Type where
  | okJson (result : JsonVal) (raw_text : List Char) : AnalyzeResp
  | softError (message : List Char) (raw : List Char) : AnalyzeResp
  | genFailure : AnalyzeResp

/-- The parse / retry-once / normalize flow of `analyze_with_genai`,
after the audio upload succeeded: `resp1` is the first response's text;
`resp2` is the retry outcome (queried only on a first-parse failure, with
`Except.error` standing for a raised `generate_content`).  Returns the
issued calls and the response. -/
def analyzeFlow (base_prompt : List Char) (uploaded : ℕ) (resp1 : List Char)
    (resp2 : Except Unit (List Char)) : List GenCall × AnalyzeResp :=
  let call1 : GenCall := ⟨[.text base_prompt, .audio uploaded]⟩
  match try_parse resp1 with
  | some p => ([call1], .okJson (normalizeScores p) resp1)
  | none =>
    let call2 : GenCall := ⟨[.text retryPrompt, .text base_prompt, .audio uploaded]⟩
    match resp2 with
    | .error _ => ([call1, call2], .genFailure)
    | .ok r2 =>
      match try_parse r2 with
      | some p => ([call1, call2], .okJson (normalizeScores p) r2)
      | none => ([call1, call2], .softError unparsedMsg resp1)

/-! ## Lemmas: association-list dictionaries and the coercion loop -/

theorem jlookup_jupdate_self (k : List Char) (v : JsonVal)
    (m : List (List Char × JsonVal)) : jlookup k (jupdate k v m) = some v := by
  induction m with
  | nil => simp [jupdate, jlookup]
  | cons a rest ih =>
    obtain ⟨k', v'⟩ := a
    by_cases h : k' = k
    · simp [jupdate, h, jlookup]
    · simp [jupdate, h, jlookup, ih]

theorem jlookup_jupdate_ne {k k' : List Char} (h : k' ≠ k) (v : JsonVal)
    (m : List (List Char × JsonVal)) : jlookup k (jupdate k' v m) = jlookup k m := by
  induction m with
  | nil => simp [jupdate, jlookup, h]
  | cons a rest ih =>
    obtain ⟨a1, a2⟩ := a
    by_cases ha : a1 = k'
    · subst ha
      simp [jupdate, jlookup, h]
    · simp [jupdate, ha, jlookup, ih]

theorem jupdate_of_jlookup_none {k : List Char} {m : List (List Char × JsonVal)}
    (h : jlookup k m = none) (v : JsonVal) : jupdate k v m = m ++ [(k, v)] := by
  induction m with
  | nil => rfl
  | cons a rest ih =>
    obtain ⟨a1, a2⟩ := a
    by_cases ha : a1 = k
    · simp [jlookup, ha] at h
    · simp [jlookup, ha] at h
      simp [jupdate, ha, ih h]

theorem coerceLoop_nil_left (ks : List (List Char)) : coerceLoop ks [] = ([], true) := by
  induction ks with
  | nil => rfl
  | cons k ks ih => simp [coerceLoop, jlookup, ih]

theorem coerceLoop_lookup_of_not_mem {k : List Char} {ks : List (List Char)}
    {sm : List (List Char × JsonVal)} (h : k ∉ ks) :
    jlookup k (coerceLoop ks sm).1 = jlookup k sm := by
  induction ks generalizing sm with
  | nil => rfl
  | cons k' ks ih =>
    have hne : k' ≠ k := by
      rintro rfl
      exact h (List.mem_cons_self _ _)
    have hks : k ∉ ks := fun hm => h (List.mem_cons_of_mem _ hm)
    cases hl : jlookup k' sm with
    | none => simp [coerceLoop, hl, ih hks]
    | some v =>
      cases v with
      | jnull => simp [coerceLoop, hl, ih hks]
      | jint n => simp [coerceLoop, hl, intFloat, ih hks, jlookup_jupdate_ne hne]
      | jfloat q => simp [coerceLoop, hl, intFloat, ih hks, jlookup_jupdate_ne hne]
      | jbool b => simp [coerceLoop, hl, intFloat, ih hks, jlookup_jupdate_ne hne]
      | jarr xs => simp [coerceLoop, hl, intFloat]
      | jobj mm => simp [coerceLoop, hl, intFloat]
      | jstr s =>
        cases hp : parsePyFloat s with
        | none => simp [coerceLoop, hl, intFloat, hp]
        | some q => simp [coerceLoop, hl, intFloat, hp, ih hks, jlookup_jupdate_ne hne]

theorem coerceLoop_lookup_of_none {k : List Char} {ks : List (List Char)}
    {sm : List (List Char × JsonVal)} (h : jlookup k sm = none) :
    jlookup k (coerceLoop ks sm).1 = none := by
  induction ks generalizing sm with
  | nil => exact h
  | cons k' ks ih =>
    cases hl : jlookup k' sm with
    | none => simp [coerceLoop, hl, ih h]
    | some v =>
      have hne : k' ≠ k := by
        rintro rfl
        rw [h] at hl
        exact Option.noConfusion hl
      cases v with
      | jnull => simp [coerceLoop, hl, ih h]
      | jint n =>
        simp [coerceLoop, hl, intFloat]
        exact ih (by rw [jlookup_jupdate_ne hne]; exact h)
      | jfloat q =>
        simp [coerceLoop, hl, intFloat]
        exact ih (by rw [jlookup_jupdate_ne hne]; exact h)
      | jbool b =>
        simp [coerceLoop, hl, intFloat]
        exact ih (by rw [jlookup_jupdate_ne hne]; exact h)
      | jarr xs => simp [coerceLoop, hl, intFloat, h]
      | jobj mm => simp [coerceLoop, hl, intFloat, h]
      | jstr s =>
        cases hp : parsePyFloat s with
        | none => simp [coerceLoop, hl, intFloat, hp, h]
        | some q =>
          simp [coerceLoop, hl, intFloat, hp]
          exact ih (by rw [jlookup_jupdate_ne hne]; exact h)

theorem coerceLoop_cons_of_some {k : List Char} {ks : List (List Char)}
    {sm : List (List Char × JsonVal)} {v : JsonVal} {n : ℤ}
    (hl : jlookup k sm = some v) (hi : intFloat v = some n) :
    coerceLoop (k :: ks) sm = coerceLoop ks (jupdate k (.jint n) sm) := by
  cases v with
  | jnull => simp [intFloat] at hi
  | jbool b => simp [coerceLoop, hl, hi]
  | jint m => simp [coerceLoop, hl, hi]
  | jfloat q => simp [coerceLoop, hl, hi]
  | jstr s => simp [coerceLoop, hl, hi]
  | jarr xs => simp [intFloat] at hi
  | jobj mm => simp [intFloat] at hi

theorem coerceLoop_cons_of_fail {k : List Char} {ks : List (List Char)}
    {sm : List (List Char × JsonVal)} {v : JsonVal}
    (hl : jlookup k sm = some v) (hv : v ≠ .jnull) (hi : intFloat v = none) :
    coerceLoop (k :: ks) sm = (sm, false) := by
  cases v with
  | jnull => exact absurd rfl hv
  | jbool b => simp [intFloat] at hi
  | jint m => simp [intFloat] at hi
  | jfloat q => simp [intFloat] at hi
  | jstr s => simp [coerceLoop, hl, hi]
  | jarr xs => simp [coerceLoop, hl, hi]
  | jobj mm => simp [coerceLoop, hl, hi]

theorem coerceLoop_cons_of_skip {k : List Char} {ks : List (List Char)}
    {sm : List (List Char × JsonVal)}
    (h : jlookup k sm = none ∨ jlookup k sm = some .jnull) :
    coerceLoop (k :: ks) sm = coerceLoop ks sm := by
  rcases h with h | h <;> simp [coerceLoop, h]

theorem scoreField_normalize {m sm : List (List Char × JsonVal)}
    (hs : jlookup scoresKey m = some (.jobj sm)) (k : List Char) :
    scoreField (normalizeScores (.jobj m)) k = jlookup k (coerceLoop scoreKeys sm).1 := by
  simp [normalizeScores, hs, scoreField, jlookup_jupdate_self]

/-! ## C10: a missing `"scores"` field is inserted -/

/-- C10: for every successfully parsed model output that is a JSON object
with no `"scores"` field, normalization appends an empty `"scores"`
object, so the success result always contains the `"scores"` key. -/
theorem normalize_inserts_missing_scores (m : List (List Char × JsonVal))
    (h : jlookup scoresKey m = none) :
    normalizeScores (.jobj m) = .jobj (m ++ [(scoresKey, .jobj [])])
    ∧ objField (normalizeScores (.jobj m)) scoresKey = some (.jobj []) := by
  have h1 : normalizeScores (.jobj m) = .jobj (jupdate scoresKey (.jobj []) m) := by
    simp [normalizeScores, h, coerceLoop_nil_left]
  constructor
  · rw [h1, jupdate_of_jlookup_none h]
  · rw [h1]
    simp [objField, jlookup_jupdate_self]

/-- Witness for `normalize_inserts_missing_scores` at a one-field object. -/
theorem normalize_inserts_missing_scores_witness :
    jlookup scoresKey [("transcript".toList, JsonVal.jstr "hi".toList)] = none
    ∧ (normalizeScores (.jobj [("transcript".toList, JsonVal.jstr "hi".toList)])
         = .jobj ([("transcript".toList, JsonVal.jstr "hi".toList)] ++ [(scoresKey, .jobj [])])
       ∧ objField (normalizeScores (.jobj [("transcript".toList, JsonVal.jstr "hi".toList)]))
           scoresKey = some (.jobj [])) :=
  ⟨rfl, normalize_inserts_missing_scores _ rfl⟩

/-! ## C4: what normalization leaves untouched -/

/-- C4 as stated is false: on a parsed object with no `"scores"` field,
normalization does change the object outside the three score fields — it
inserts a fresh `"scores"` key. -/
theorem normalize_frame_counterexample :
    normalizeScores (.jobj []) = .jobj [(scoresKey, .jobj [])]
    ∧ JsonVal.jobj [(scoresKey, .jobj [])] ≠ .jobj [] := by
  refine ⟨rfl, ?_⟩
  intro h
  have := JsonVal.jobj.inj h
  simp at this

/-- C4 (amended): normalization never modifies `filler_rate_per_min` nor
any other field outside `scores.fluency` / `scores.confidence` /
`scores.keyword_coverage_pct` — except that a missing `"scores"` key is
inserted as an empty object.  Concretely: inside an existing `"scores"`
dict every non-coerced key keeps its value; every top-level key other
than `"scores"` keeps its value; and a non-dict `"scores"` value leaves
the object entirely unchanged. -/
theorem normalize_frame (m : List (List Char × JsonVal)) :
    (∀ sm k, jlookup scoresKey m = some (.jobj sm) → k ∉ scoreKeys →
      scoreField (normalizeScores (.jobj m)) k = jlookup k sm)
    ∧ (∀ k, k ≠ scoresKey →
        objField (normalizeScores (.jobj m)) k = jlookup k m)
    ∧ (∀ v, jlookup scoresKey m = some v → (∀ sm, v ≠ .jobj sm) →
        normalizeScores (.jobj m) = .jobj m) := by
  refine ⟨?_, ?_, ?_⟩
  · intro sm k hs hk
    rw [scoreField_normalize hs k, coerceLoop_lookup_of_not_mem hk]
  · intro k hk
    have hk' : scoresKey ≠ k := fun he => hk he.symm
    cases hs : jlookup scoresKey m with
    | none =>
      simp [normalizeScores, hs, coerceLoop_nil_left, objField, jlookup_jupdate_ne hk']
    | some v =>
      cases v with
      | jobj sm => simp [normalizeScores, hs, objField, jlookup_jupdate_ne hk']
      | jnull => simp [normalizeScores, hs, objField]
      | jbool b => simp [normalizeScores, hs, objField]
      | jint n => simp [normalizeScores, hs, objField]
      | jfloat q => simp [normalizeScores, hs, objField]
      | jstr s => simp [normalizeScores, hs, objField]
      | jarr xs => simp [normalizeScores, hs, objField]
  · intro v hs hv
    cases v with
    | jobj sm => exact absurd rfl (hv sm)
    | jnull => simp [normalizeScores, hs]
    | jbool b => simp [normalizeScores, hs]
    | jint n => simp [normalizeScores, hs]
    | jfloat q => simp [normalizeScores, hs]
    | jstr s => simp [normalizeScores, hs]
    | jarr xs => simp [normalizeScores, hs]

/-- Witness for `normalize_frame`: `filler_rate_per_min` and a top-level
`transcript` field survive normalization; a numeric `"scores"` value
leaves the object unchanged. -/
theorem normalize_frame_witness :
    (scoreField (normalizeScores (.jobj
        [(scoresKey, .jobj [(fillerRateKey, .jstr "2.5".toList)]),
         ("transcript".toList, .jstr "hi".toList)])) fillerRateKey
      = jlookup fillerRateKey [(fillerRateKey, JsonVal.jstr "2.5".toList)])
    ∧ (objField (normalizeScores (.jobj
        [(scoresKey, .jobj [(fillerRateKey, .jstr "2.5".toList)]),
         ("transcript".toList, .jstr "hi".toList)])) "transcript".toList
      = jlookup "transcript".toList
          [(scoresKey, JsonVal.jobj [(fillerRateKey, .jstr "2.5".toList)]),
           ("transcript".toList, JsonVal.jstr "hi".toList)])
    ∧ normalizeScores (.jobj [(scoresKey, .jint 5)]) = .jobj [(scoresKey, .jint 5)] := by
  refine ⟨?_, ?_, ?_⟩
  · exact (normalize_frame _).1 _ _ rfl (by decide)
  · exact (normalize_frame _).2.1 _ (by decide)
  · exact (normalize_frame _).2.2 _ rfl (fun sm h => JsonVal.noConfusion h)

/-! ## C3: coercion of the three score fields -/

/-- C3 as stated is false: with `fluency = "87.9"`, `confidence = "abc"`,
`keyword_coverage_pct = "50.5"`, the failed coercion of `confidence`
raises out of the loop, so `keyword_coverage_pct` is NOT coerced (it
stays the string `"50.5"` instead of becoming the integer `50`),
contradicting "coercion of the other fields still takes place". -/
theorem normalize_not_independent_counterexample :
    normalizeScores (.jobj [(scoresKey, .jobj
        [(fluencyKey, .jstr "87.9".toList), (confidenceKey, .jstr "abc".toList),
         (kcpKey, .jstr "50.5".toList)])])
      = .jobj [(scoresKey, .jobj
        [(fluencyKey, .jint 87), (confidenceKey, .jstr "abc".toList),
         (kcpKey, .jstr "50.5".toList)])]
    ∧ JsonVal.jstr "50.5".toList ≠ .jint 50 :=
  ⟨rfl, fun h => JsonVal.noConfusion h⟩

/-- C3 (amended): the coercion loop runs left to right over `fluency`,
`confidence`, `keyword_coverage_pct`; a present, non-null field whose
coercion succeeds becomes its truncated integer, provided no earlier
field raised; the first coercion failure aborts the loop, leaving the
failing and all later fields untouched while coercions already made
persist; a missing field stays absent; `"87.9"` coerces to `87`. -/
theorem normalize_coercion (m sm : List (List Char × JsonVal))
    (hs : jlookup scoresKey m = some (.jobj sm)) :
    (∀ v n, jlookup fluencyKey sm = some v → intFloat v = some n →
      scoreField (normalizeScores (.jobj m)) fluencyKey = some (.jint n))
    ∧ (∀ v, jlookup fluencyKey sm = some v → v ≠ .jnull → intFloat v = none →
        ∀ k, scoreField (normalizeScores (.jobj m)) k = jlookup k sm)
    ∧ (keyCoerces fluencyKey sm → ∀ v n, jlookup confidenceKey sm = some v →
        intFloat v = some n →
        scoreField (normalizeScores (.jobj m)) confidenceKey = some (.jint n))
    ∧ (keyCoerces fluencyKey sm → ∀ v, jlookup confidenceKey sm = some v →
        v ≠ .jnull → intFloat v = none →
        scoreField (normalizeScores (.jobj m)) confidenceKey = jlookup confidenceKey sm
        ∧ scoreField (normalizeScores (.jobj m)) kcpKey = jlookup kcpKey sm)
    ∧ (keyCoerces fluencyKey sm → keyCoerces confidenceKey sm →
        ∀ v n, jlookup kcpKey sm = some v → intFloat v = some n →
        scoreField (normalizeScores (.jobj m)) kcpKey = some (.jint n))
    ∧ (∀ k, jlookup k sm = none → scoreField (normalizeScores (.jobj m)) k = none)
    ∧ intFloat (.jstr "87.9".toList) = some 87 := by
  have hkeys : scoreKeys = fluencyKey :: confidenceKey :: kcpKey :: [] := rfl
  have hfc : fluencyKey ≠ confidenceKey := by decide
  have hfk : fluencyKey ≠ kcpKey := by decide
  have hck : confidenceKey ≠ kcpKey := by decide
  have hN := scoreField_normalize hs
  refine ⟨?_, ?_, ?_, ?_, ?_, ?_, rfl⟩
  · intro v n hl hi
    rw [hN, hkeys, coerceLoop_cons_of_some hl hi,
      coerceLoop_lookup_of_not_mem (by decide), jlookup_jupdate_self]
  · intro v hl hv hi k
    rw [hN, hkeys, coerceLoop_cons_of_fail hl hv hi]
  · intro hflu v n hl hi
    rcases hflu with hf | hf | ⟨v', n', hl', hi'⟩
    · rw [hN, hkeys, coerceLoop_cons_of_skip (Or.inl hf), coerceLoop_cons_of_some hl hi,
        coerceLoop_lookup_of_not_mem (by decide), jlookup_jupdate_self]
    · rw [hN, hkeys, coerceLoop_cons_of_skip (Or.inr hf), coerceLoop_cons_of_some hl hi,
        coerceLoop_lookup_of_not_mem (by decide), jlookup_jupdate_self]
    · have hl2 : jlookup confidenceKey (jupdate fluencyKey (.jint n') sm) = some v := by
        rw [jlookup_jupdate_ne hfc]
        exact hl
      rw [hN, hkeys, coerceLoop_cons_of_some hl' hi', coerceLoop_cons_of_some hl2 hi,
        coerceLoop_lookup_of_not_mem (by decide), jlookup_jupdate_self]
  · intro hflu v hl hv hi
    rcases hflu with hf | hf | ⟨v', n', hl', hi'⟩
    · constructor
      · rw [hN, hkeys, coerceLoop_cons_of_skip (Or.inl hf), coerceLoop_cons_of_fail hl hv hi]
      · rw [hN, hkeys, coerceLoop_cons_of_skip (Or.inl hf), coerceLoop_cons_of_fail hl hv hi]
    · constructor
      · rw [hN, hkeys, coerceLoop_cons_of_skip (Or.inr hf), coerceLoop_cons_of_fail hl hv hi]
      · rw [hN, hkeys, coerceLoop_cons_of_skip (Or.inr hf), coerceLoop_cons_of_fail hl hv hi]
    · have hl2 : jlookup confidenceKey (jupdate fluencyKey (.jint n') sm) = some v := by
        rw [jlookup_jupdate_ne hfc]
        exact hl
      constructor
      · rw [hN, hkeys, coerceLoop_cons_of_some hl' hi', coerceLoop_cons_of_fail hl2 hv hi]
        exact jlookup_jupdate_ne hfc _ sm
      · rw [hN, hkeys, coerceLoop_cons_of_some hl' hi', coerceLoop_cons_of_fail hl2 hv hi]
        exact jlookup_jupdate_ne hfk _ sm
  · intro hflu hconf v n hl hi
    have auxskip : (jlookup fluencyKey sm = none ∨ jlookup fluencyKey sm = some .jnull) →
        scoreField (normalizeScores (.jobj m)) kcpKey = some (.jint n) := by
      intro hf
      rcases hconf with hc | hc | ⟨w', m', hlc', hic'⟩
      · rw [hN, hkeys, coerceLoop_cons_of_skip hf, coerceLoop_cons_of_skip (Or.inl hc),
          coerceLoop_cons_of_some hl hi, coerceLoop_lookup_of_not_mem (by decide),
          jlookup_jupdate_self]
      · rw [hN, hkeys, coerceLoop_cons_of_skip hf, coerceLoop_cons_of_skip (Or.inr hc),
          coerceLoop_cons_of_some hl hi, coerceLoop_lookup_of_not_mem (by decide),
          jlookup_jupdate_self]
      · have hl3 : jlookup kcpKey (jupdate confidenceKey (.jint m') sm) = some v := by
          rw [jlookup_jupdate_ne hck]
          exact hl
        rw [hN, hkeys, coerceLoop_cons_of_skip hf, coerceLoop_cons_of_some hlc' hic',
          coerceLoop_cons_of_some hl3 hi, coerceLoop_lookup_of_not_mem (by decide),
          jlookup_jupdate_self]
    rcases hflu with hf | hf | ⟨v', n', hl', hi'⟩
    · exact auxskip (Or.inl hf)
    · exact auxskip (Or.inr hf)
    · have hlk2 : jlookup kcpKey (jupdate fluencyKey (.jint n') sm) = some v := by
        rw [jlookup_jupdate_ne hfk]
        exact hl
      rcases hconf with hc | hc | ⟨w', m', hlc', hic'⟩
      · have hc2 : jlookup confidenceKey (jupdate fluencyKey (.jint n') sm) = none := by
          rw [jlookup_jupdate_ne hfc]
          exact hc
        rw [hN, hkeys, coerceLoop_cons_of_some hl' hi', coerceLoop_cons_of_skip (Or.inl hc2),
          coerceLoop_cons_of_some hlk2 hi, coerceLoop_lookup_of_not_mem (by decide),
          jlookup_jupdate_self]
      · have hc2 : jlookup confidenceKey (jupdate fluencyKey (.jint n') sm)
            = some .jnull := by
          rw [jlookup_jupdate_ne hfc]
          exact hc
        rw [hN, hkeys, coerceLoop_cons_of_some hl' hi', coerceLoop_cons_of_skip (Or.inr hc2),
          coerceLoop_cons_of_some hlk2 hi, coerceLoop_lookup_of_not_mem (by decide),
          jlookup_jupdate_self]
      · have hlc2 : jlookup confidenceKey (jupdate fluencyKey (.jint n') sm) = some w' := by
          rw [jlookup_jupdate_ne hfc]
          exact hlc'
        have hlk3 : jlookup kcpKey (jupdate confidenceKey (.jint m')
            (jupdate fluencyKey (.jint n') sm)) = some v := by
          rw [jlookup_jupdate_ne hck, jlookup_jupdate_ne hfk]
          exact hl
        rw [hN, hkeys, coerceLoop_cons_of_some hl' hi', coerceLoop_cons_of_some hlc2 hic',
          coerceLoop_cons_of_some hlk3 hi, coerceLoop_lookup_of_not_mem (by decide),
          jlookup_jupdate_self]
  · intro k hk
    rw [hN]
    exact coerceLoop_lookup_of_none hk

/-- Witness for `normalize_coercion`: the `"87.9" → 87` coercion on a
well-formed scores dict, and the abort behaviour when `fluency` is the
string `"abc"`. -/
theorem normalize_coercion_witness :
    (jlookup scoresKey [(scoresKey, JsonVal.jobj [(fluencyKey, .jstr "87.9".toList)])]
        = some (.jobj [(fluencyKey, JsonVal.jstr "87.9".toList)])
     ∧ jlookup fluencyKey [(fluencyKey, JsonVal.jstr "87.9".toList)]
        = some (.jstr "87.9".toList)
     ∧ intFloat (.jstr "87.9".toList) = some 87
     ∧ scoreField (normalizeScores
          (.jobj [(scoresKey, .jobj [(fluencyKey, .jstr "87.9".toList)])])) fluencyKey
        = some (.jint 87))
    ∧ (jlookup fluencyKey
          [(fluencyKey, JsonVal.jstr "abc".toList), (kcpKey, JsonVal.jstr "50.5".toList)]
        = some (.jstr "abc".toList)
     ∧ intFloat (.jstr "abc".toList) = none
     ∧ scoreField (normalizeScores (.jobj [(scoresKey, .jobj
          [(fluencyKey, .jstr "abc".toList), (kcpKey, .jstr "50.5".toList)])])) kcpKey
        = jlookup kcpKey
            [(fluencyKey, JsonVal.jstr "abc".toList), (kcpKey, JsonVal.jstr "50.5".toList)]) :=
  ⟨⟨rfl, rfl, rfl,
    (normalize_coercion [(scoresKey, .jobj [(fluencyKey, .jstr "87.9".toList)])]
        [(fluencyKey, .jstr "87.9".toList)] rfl).1
      (.jstr "87.9".toList) 87 rfl rfl⟩,
   ⟨rfl, rfl,
    (normalize_coercion
        [(scoresKey, .jobj [(fluencyKey, .jstr "abc".toList), (kcpKey, .jstr "50.5".toList)])]
        [(fluencyKey, .jstr "abc".toList), (kcpKey, .jstr "50.5".toList)] rfl).2.1
      (.jstr "abc".toList) rfl (fun h => nomatch h) rfl kcpKey⟩⟩

/-! ## C5 / C6: the sequential filename allocator -/

theorem allocRun_spec (origs : List (List Char)) (c : ℤ) (f : CounterFile) :
    allocRun origs ⟨c, f⟩ =
      ((List.range origs.length).zipWith
         (fun (i : ℕ) (o : List Char) => intToChars (c + (i : ℤ) + 1) ++ extOf o) origs,
       ⟨c + origs.length,
        if origs = [] then f else .holds (intToChars (c + origs.length))⟩) := by
  induction origs generalizing c f with
  | nil => simp [allocRun]
  | cons o os ih =>
    have hfun : (fun (i : ℕ) (o : List Char) =>
          intToChars (c + ((Nat.succ i : ℕ) : ℤ) + 1) ++ extOf o)
        = (fun (i : ℕ) (o : List Char) => intToChars (c + 1 + (i : ℤ) + 1) ++ extOf o) := by
      funext i o
      push_cast
      ring_nf
    simp only [allocRun, safe_filename, ih, List.length_cons, List.range_succ_eq_map,
      List.zipWith_cons_cons, List.zipWith_map_left, hfun]
    simp only [Prod.mk.injEq, AllocState.mk.injEq, List.cons.injEq]
    refine ⟨⟨by norm_num, trivial⟩, by push_cast; ring, ?_⟩
    by_cases hos : os = []
    · subst hos
      simp
    · simp only [hos, if_false, List.cons_ne_nil, if_neg, ite_false]
      have : c + 1 + (os.length : ℤ) = c + ((os.length : ℕ) + 1 : ℕ) := by push_cast; ring
      rw [this]

/-- C5: starting from an absent counter file (counter 0), the `i`-th
allocation (0-based) returns `{i+1}{ext_i}` — numbers `1..N` in order,
never repeating regardless of extension; the in-memory counter ends at
`N` with that value persisted; each single call returns
`"{counter}{extension}"` after incrementing and persisting the counter;
an extension-less name defaults to `".bin"`. -/
theorem alloc_sequence (origs : List (List Char)) :
    (allocRun origs ⟨load_counter .absent, .absent⟩).1
      = (List.range origs.length).zipWith
          (fun (i : ℕ) (o : List Char) => intToChars ((i : ℤ) + 1) ++ extOf o) origs
    ∧ (allocRun origs ⟨load_counter .absent, .absent⟩).2.counter = origs.length
    ∧ (allocRun origs ⟨load_counter .absent, .absent⟩).2.file
        = (if origs = [] then CounterFile.absent else .holds (intToChars origs.length))
    ∧ (∀ orig st, safe_filename orig st
        = (intToChars (st.counter + 1) ++ extOf orig,
           ⟨st.counter + 1, .holds (intToChars (st.counter + 1))⟩))
    ∧ (∀ orig, pySuffix orig = [] → extOf orig = ".bin".toList) := by
  have h := allocRun_spec origs (load_counter .absent) CounterFile.absent
  simp only [load_counter] at h
  rw [show (⟨load_counter .absent, CounterFile.absent⟩ : AllocState)
        = ⟨0, CounterFile.absent⟩ from rfl, h]
  refine ⟨by simp, by simp, by simp, fun orig st => rfl, fun orig hs => by simp [extOf, hs]⟩

/-- Witness for `alloc_sequence`'s extension-default clause at a concrete
input (the other clauses are hypothesis-free). -/
theorem alloc_sequence_witness :
    pySuffix ("noext".toList) = [] ∧ extOf ("noext".toList) = ".bin".toList :=
  ⟨rfl, (alloc_sequence []).2.2.2.2 _ rfl⟩

/-- C6: a counter file whose (stripped) text parses as the integer `K`
makes the next allocation return number `K+1`; an absent or unreadable
file, or unparseable text, silently initializes the counter to `0`, so
the next allocated number is `1`. -/
theorem counter_restart :
    (∀ (K : ℤ) (content orig : List Char), pyInt? (pyStrip content) = some K →
      (safe_filename orig ⟨load_counter (.holds content), .holds content⟩).1
        = intToChars (K + 1) ++ extOf orig)
    ∧ load_counter .absent = 0
    ∧ load_counter .unreadable = 0
    ∧ (∀ content, pyInt? (pyStrip content) = none → load_counter (.holds content) = 0)
    ∧ (∀ content orig, pyInt? (pyStrip content) = none →
        (safe_filename orig ⟨load_counter (.holds content), .holds content⟩).1
          = intToChars 1 ++ extOf orig)
    ∧ (∀ orig, (safe_filename orig ⟨load_counter .absent, .absent⟩).1
        = intToChars 1 ++ extOf orig) := by
  have hload : ∀ content, pyInt? (pyStrip content) = none →
      load_counter (.holds content) = 0 := by
    intro content h
    by_cases he : pyStrip content = []
    · simp [load_counter, he]
    · simp [load_counter, he, h]
  refine ⟨?_, rfl, rfl, hload, ?_, fun orig => rfl⟩
  · intro K content orig h
    have hne : pyStrip content ≠ [] := by
      intro he
      rw [he] at h
      simp [pyInt?] at h
    have hl : load_counter (.holds content) = K := by
      simp [load_counter, hne, h]
    show intToChars (load_counter (.holds content) + 1) ++ extOf orig = _
    rw [hl]
  · intro content orig h
    show intToChars (load_counter (.holds content) + 1) ++ extOf orig = _
    rw [hload content h]
    norm_num

/-- Witness for `counter_restart`: the file text `" 41\n"` parses as 41
and yields name number 42; the corrupt text `"12abc"` loads as 0. -/
theorem counter_restart_witness :
    (pyInt? (pyStrip (" 41\n".toList)) = some 41
     ∧ (safe_filename ("x.mp3".toList)
          ⟨load_counter (.holds (" 41\n".toList)), .holds (" 41\n".toList)⟩).1
        = intToChars (41 + 1) ++ extOf ("x.mp3".toList))
    ∧ (pyInt? (pyStrip ("12abc".toList)) = none
     ∧ load_counter (.holds ("12abc".toList)) = 0) :=
  ⟨⟨rfl, counter_restart.1 41 _ _ rfl⟩, ⟨rfl, counter_restart.2.2.2.1 _ rfl⟩⟩

/-! ## C2: WAV duration -/

/-- C2 as stated is false: a header with sample rate `0` does not yield a
null duration — `get_wav_duration_seconds` explicitly returns `0.0`, and
the upload response then reports `duration_seconds = 0.0`, not null. -/
theorem duration_zero_rate_counterexample :
    get_wav_duration_seconds ⟨5, 0⟩ = 0
    ∧ (upload_audio ("voice.m4a".toList) ⟨true, true, some ⟨5, 0⟩, true⟩
         ⟨0, .absent⟩ []).1 = .ok ("1.wav".toList) (some 0)
    ∧ some (0 : ℚ) ≠ (none : Option ℚ) :=
  ⟨rfl, rfl, fun h => nomatch h⟩

/-- C2 (amended): a zero sample rate yields duration `0.0` (a number, not
null and not an error); a nonzero rate yields `frames / rate`; a read
failure (`wave.open` raising) degrades to a null `duration_seconds` in
the upload response instead of failing the request, while a readable
header yields the rounded computed duration. -/
theorem duration_behaviour :
    (∀ f : ℕ, get_wav_duration_seconds ⟨f, 0⟩ = 0)
    ∧ (∀ f r : ℕ, r ≠ 0 → get_wav_duration_seconds ⟨f, r⟩ = (f : ℚ) / (r : ℚ))
    ∧ (∀ orig env st fs, orig ≠ [] → env.writeOk = true → env.convertOk = true →
        env.wavRead = none →
        (upload_audio orig env st fs).1
          = .ok (pyStem (safe_filename orig st).1 ++ wavExt) none)
    ∧ (∀ orig env st fs h, orig ≠ [] → env.writeOk = true → env.convertOk = true →
        env.wavRead = some h →
        (upload_audio orig env st fs).1
          = .ok (pyStem (safe_filename orig st).1 ++ wavExt)
              (some (pyRound3 (get_wav_duration_seconds h)))) := by
  refine ⟨fun f => rfl, fun f r hr => by simp [get_wav_duration_seconds, hr], ?_, ?_⟩
  · intro orig env st fs ho hw hc hr
    simp [upload_audio, ho, hw, hc, hr]
  · intro orig env st fs h ho hw hc hr
    simp [upload_audio, ho, hw, hc, hr]

/-- Witness for `duration_behaviour` at concrete headers and uploads. -/
theorem duration_behaviour_witness :
    get_wav_duration_seconds ⟨7, 0⟩ = 0
    ∧ ((2 : ℕ) ≠ 0 ∧ get_wav_duration_seconds ⟨6, 2⟩ = ((6 : ℕ) : ℚ) / ((2 : ℕ) : ℚ))
    ∧ (upload_audio ("a.mp3".toList) ⟨true, true, none, true⟩ ⟨0, .absent⟩ []).1
        = .ok (pyStem (safe_filename ("a.mp3".toList) ⟨0, .absent⟩).1 ++ wavExt) none
    ∧ (upload_audio ("a.mp3".toList) ⟨true, true, some ⟨6, 2⟩, true⟩ ⟨0, .absent⟩ []).1
        = .ok (pyStem (safe_filename ("a.mp3".toList) ⟨0, .absent⟩).1 ++ wavExt)
            (some (pyRound3 (get_wav_duration_seconds ⟨6, 2⟩))) :=
  ⟨duration_behaviour.1 7,
   ⟨by decide, duration_behaviour.2.1 6 2 (by decide)⟩,
   duration_behaviour.2.2.1 _ _ _ _ (by decide) rfl rfl rfl,
   duration_behaviour.2.2.2 _ _ _ _ _ (by decide) rfl rfl rfl⟩

/-! ## C7: the single parse retry -/

/-- C7: when the first response is unparseable, exactly one retry is
issued, with the stricter JSON-only instruction prepended to the original
prompt and the same uploaded audio reference; if the retry's text parses,
the response carries its parse (normalized) and its raw text; if it still
fails to parse, the response is the soft `status:"error"` body carrying a
message and the retained raw text, with no further calls. -/
theorem analyze_retry_once (bp : List Char) (up : ℕ) (r1 r2 : List Char)
    (h1 : try_parse r1 = none) :
    ((analyzeFlow bp up r1 (.ok r2)).1
       = [⟨[.text bp, .audio up]⟩, ⟨[.text retryPrompt, .text bp, .audio up]⟩])
    ∧ (∀ p, try_parse r2 = some p →
        (analyzeFlow bp up r1 (.ok r2)).2 = .okJson (normalizeScores p) r2)
    ∧ (try_parse r2 = none →
        (analyzeFlow bp up r1 (.ok r2)).2 = .softError unparsedMsg r1) := by
  refine ⟨?_, ?_, ?_⟩
  · cases h2 : try_parse r2 <;> simp [analyzeFlow, h1, h2]
  · intro p h2
    simp [analyzeFlow, h1, h2]
  · intro h2
    simp [analyzeFlow, h1, h2]

/-- Witness for `analyze_retry_once`: an unparseable first response and a
retry answering a JSON object. -/
theorem analyze_retry_once_witness :
    try_parse ("oops".toList) = none
    ∧ ((analyzeFlow ("prompt".toList) 7 ("oops".toList)
          (.ok ['\x7b', '"', 'a', '"', ':', '1', '\x7d'])).1
        = [⟨[.text ("prompt".toList), .audio 7]⟩,
           ⟨[.text retryPrompt, .text ("prompt".toList), .audio 7]⟩])
    ∧ try_parse ['\x7b', '"', 'a', '"', ':', '1', '\x7d']
        = some (.jobj [(['a'], .jint 1)])
    ∧ ((analyzeFlow ("prompt".toList) 7 ("oops".toList)
          (.ok ['\x7b', '"', 'a', '"', ':', '1', '\x7d'])).2
        = .okJson (normalizeScores (.jobj [(['a'], .jint 1)]))
            ['\x7b', '"', 'a', '"', ':', '1', '\x7d'])
    ∧ try_parse ("still not json".toList) = none
    ∧ ((analyzeFlow ("prompt".toList) 7 ("oops".toList)
          (.ok ("still not json".toList))).2
        = .softError unparsedMsg ("oops".toList)) :=
  ⟨rfl,
   (analyze_retry_once ("prompt".toList) 7 ("oops".toList) _ rfl).1,
   rfl,
   (analyze_retry_once ("prompt".toList) 7 ("oops".toList) _ rfl).2.1 _ rfl,
   rfl,
   (analyze_retry_once ("prompt".toList) 7 ("oops".toList) _ rfl).2.2 rfl⟩

/-! ## C8: resolution of the target wav file -/

theorem insertDesc_ne_nil (x : StoredFile) (l : List StoredFile) :
    insertDesc x l ≠ [] := by
  cases l with
  | nil => simp [insertDesc]
  | cons y ys =>
    simp only [insertDesc]
    split <;> simp

theorem sortByMtimeDesc_eq_nil {l : List StoredFile}
    (h : sortByMtimeDesc l = []) : l = [] := by
  cases l with
  | nil => rfl
  | cons a as => exact absurd h (insertDesc_ne_nil a _)

theorem sortByMtimeDesc_head_spec :
    ∀ (l : List StoredFile) (x : StoredFile) (t : List StoredFile),
      sortByMtimeDesc l = x :: t → x ∈ l ∧ ∀ g ∈ l, g.mtime ≤ x.mtime := by
  intro l
  induction l with
  | nil => intro x t h; exact absurd h (by simp [sortByMtimeDesc])
  | cons a as ih =>
    intro x t h
    have hfold : sortByMtimeDesc (a :: as) = insertDesc a (sortByMtimeDesc as) := rfl
    rw [hfold] at h
    cases hs : sortByMtimeDesc as with
    | nil =>
      have has : as = [] := sortByMtimeDesc_eq_nil hs
      rw [hs] at h
      simp only [insertDesc, List.cons.injEq] at h
      subst has
      refine ⟨by simp [h.1], ?_⟩
      intro g hg
      simp only [List.mem_cons, List.not_mem_nil, or_false] at hg
      subst hg
      rw [h.1]
    | cons b bs =>
      obtain ⟨hbmem, hbmax⟩ := ih b bs hs
      rw [hs] at h
      simp only [insertDesc] at h
      by_cases hlt : a.mtime < b.mtime
      · rw [if_pos hlt] at h
        obtain ⟨hx, -⟩ := List.cons.inj h
        subst hx
        refine ⟨List.mem_cons_of_mem _ hbmem, ?_⟩
        intro g hg
        rcases List.mem_cons.mp hg with hg | hg
        · subst hg
          exact le_of_lt hlt
        · exact hbmax g hg
      · rw [if_neg hlt] at h
        obtain ⟨hx, -⟩ := List.cons.inj h
        subst hx
        refine ⟨List.mem_cons_self _ _, ?_⟩
        intro g hg
        rcases List.mem_cons.mp hg with hg | hg
        · subst hg
          exact le_refl _
        · exact le_trans (hbmax g hg) (not_lt.mp hlt)

/-- C8 as stated is false: an explicitly supplied empty `wav_filename`
names no stored file, so the claim demands a 404, but `if not
wav_filename` treats the empty string as omitted and serves the most
recent `.wav` instead. -/
theorem resolve_empty_name_counterexample :
    resolveWav (some []) [⟨"1.wav".toList, 5⟩] = .okFile ("1.wav".toList)
    ∧ ResolveResult.okFile ("1.wav".toList) ≠ .notFound404 :=
  ⟨rfl, fun h => nomatch h⟩

/-- C8 (amended): a supplied non-empty `wav_filename` that names no
stored file fails with 404 (and an existing one is served as given); an
omitted — or falsy, i.e. null or empty — `wav_filename` selects a stored
`.wav` of maximal modification time, or fails with 404 when no `.wav`
exists. -/
theorem resolve_target (storage : List StoredFile) :
    (∀ n, n ≠ [] → (∀ f ∈ storage, f.name ≠ n) →
      resolveWav (some n) storage = .notFound404)
    ∧ (∀ n f, n ≠ [] → f ∈ storage → f.name = n →
        resolveWav (some n) storage = .okFile n)
    ∧ ((∀ f ∈ storage, isWavName f.name = false) →
        resolveWav none storage = .notFound404
        ∧ resolveWav (some []) storage = .notFound404)
    ∧ (∀ f₀, f₀ ∈ storage → isWavName f₀.name = true →
        ∃ f, f ∈ storage ∧ isWavName f.name = true
          ∧ resolveWav none storage = .okFile f.name
          ∧ resolveWav (some []) storage = .okFile f.name
          ∧ ∀ g ∈ storage, isWavName g.name = true → g.mtime ≤ f.mtime) := by
  refine ⟨?_, ?_, ?_, ?_⟩
  · intro n hn hnone
    cases n with
    | nil => exact absurd rfl hn
    | cons c cs =>
      have hany : storage.any (fun f => decide (f.name = c :: cs)) = false := by
        rw [List.any_eq_false]
        intro f hf
        simp only [decide_eq_true_eq]
        exact hnone f hf
      simp [resolveWav, hany]
  · intro n f hn hf hfn
    cases n with
    | nil => exact absurd rfl hn
    | cons c cs =>
      have hany : storage.any (fun f => decide (f.name = c :: cs)) = true := by
        rw [List.any_eq_true]
        exact ⟨f, hf, by simp [hfn]⟩
      simp [resolveWav, hany]
  · intro hno
    have hfil : storage.filter (fun f => isWavName f.name) = [] := by
      rw [List.filter_eq_nil_iff]
      intro f hf
      simp [hno f hf]
    constructor <;> simp [resolveWav, pickLatestWav, hfil, sortByMtimeDesc]
  · intro f₀ h₀ hw₀
    have hmem : f₀ ∈ storage.filter (fun f => isWavName f.name) :=
      List.mem_filter.mpr ⟨h₀, hw₀⟩
    cases hs : sortByMtimeDesc (storage.filter (fun f => isWavName f.name)) with
    | nil =>
      have := sortByMtimeDesc_eq_nil hs
      rw [this] at hmem
      exact absurd hmem (List.not_mem_nil _)
    | cons x t =>
      obtain ⟨hxmem, hxmax⟩ := sortByMtimeDesc_head_spec _ x t hs
      have hxstor := List.mem_filter.mp hxmem
      refine ⟨x, hxstor.1, hxstor.2, ?_, ?_, ?_⟩
      · simp [resolveWav, pickLatestWav, hs]
      · simp [resolveWav, pickLatestWav, hs]
      · intro g hg hgw
        exact hxmax g (List.mem_filter.mpr ⟨hg, hgw⟩)

/-- Witness for `resolve_target` on a three-file store. -/
theorem resolve_target_witness :
    (("zz.wav".toList ≠ ([] : List Char))
     ∧ resolveWav (some ("zz.wav".toList))
         [⟨"1.wav".toList, 5⟩, ⟨"2.wav".toList, 9⟩, ⟨"a.txt".toList, 99⟩] = .notFound404)
    ∧ resolveWav (some ("1.wav".toList))
        [⟨"1.wav".toList, 5⟩, ⟨"2.wav".toList, 9⟩, ⟨"a.txt".toList, 99⟩]
        = .okFile ("1.wav".toList)
    ∧ resolveWav none [⟨"a.txt".toList, 99⟩] = .notFound404
    ∧ (∃ f : StoredFile,
        f ∈ ([⟨"1.wav".toList, 5⟩, ⟨"2.wav".toList, 9⟩,
              ⟨"a.txt".toList, 99⟩] : List StoredFile)
        ∧ isWavName f.name = true
        ∧ resolveWav none [⟨"1.wav".toList, 5⟩, ⟨"2.wav".toList, 9⟩, ⟨"a.txt".toList, 99⟩]
            = .okFile f.name
        ∧ resolveWav (some [])
            [⟨"1.wav".toList, 5⟩, ⟨"2.wav".toList, 9⟩, ⟨"a.txt".toList, 99⟩]
            = .okFile f.name
        ∧ ∀ g ∈ ([⟨"1.wav".toList, 5⟩, ⟨"2.wav".toList, 9⟩,
                  ⟨"a.txt".toList, 99⟩] : List StoredFile),
            isWavName g.name = true → g.mtime ≤ f.mtime) := by
  refine ⟨⟨by decide, ?_⟩, ?_, ?_, ?_⟩
  · exact (resolve_target _).1 _ (by decide) (by
      intro f hf
      fin_cases hf <;> decide)
  · exact (resolve_target _).2.1 _ ⟨"1.wav".toList, 5⟩ (by decide) (by decide) rfl
  · exact ((resolve_target _).2.2.1 (by
      intro f hf
      fin_cases hf
      decide)).1
  · exact (resolve_target _).2.2.2 ⟨"2.wav".toList, 9⟩ (by decide) (by decide)

/-! ## C9: cleanup of the original upload -/

/-- C9: every terminal-success upload answers `ok` with the normalized
wav name and attempts the unlink of the original unconditionally: when
the unlink succeeds, storage gains exactly the `.wav` file (the original
is gone); when it fails, the failure is swallowed — the original lingers
but the response is identical to the successful-unlink response. -/
theorem upload_deletes_original (orig : List Char) (env : UploadEnv) (st : AllocState)
    (fs : List (List Char)) (ho : orig ≠ [])
    (hw : env.writeOk = true) (hc : env.convertOk = true)
    (h1 : (safe_filename orig st).1 ∉ fs)
    (h2 : pyStem (safe_filename orig st).1 ++ wavExt ∉ fs)
    (h3 : (safe_filename orig st).1 ≠ pyStem (safe_filename orig st).1 ++ wavExt) :
    ((upload_audio orig env st fs).1
       = .ok (pyStem (safe_filename orig st).1 ++ wavExt)
           ((env.wavRead.map get_wav_duration_seconds).map pyRound3))
    ∧ (env.unlinkOk = true →
        (upload_audio orig env st fs).2.1
          = fs ++ [pyStem (safe_filename orig st).1 ++ wavExt])
    ∧ (env.unlinkOk = false →
        (upload_audio orig env st fs).2.1
          = fs ++ [(safe_filename orig st).1,
                   pyStem (safe_filename orig st).1 ++ wavExt])
    ∧ ((upload_audio orig env st fs).1
       = (upload_audio orig ⟨env.writeOk, env.convertOk, env.wavRead, true⟩ st fs).1) := by
  have hadd1 : fsAdd fs (safe_filename orig st).1 = fs ++ [(safe_filename orig st).1] := by
    simp [fsAdd, h1]
  have hadd2 : fsAdd (fs ++ [(safe_filename orig st).1])
      (pyStem (safe_filename orig st).1 ++ wavExt)
      = fs ++ [(safe_filename orig st).1,
               pyStem (safe_filename orig st).1 ++ wavExt] := by
    have : pyStem (safe_filename orig st).1 ++ wavExt
        ∉ fs ++ [(safe_filename orig st).1] := by
      simp only [List.mem_append, List.mem_singleton]
      rintro (hin | heq)
      · exact h2 hin
      · exact h3 heq.symm
    simp [fsAdd, this]
  have herase : (fs ++ [(safe_filename orig st).1,
      pyStem (safe_filename orig st).1 ++ wavExt]).erase (safe_filename orig st).1
      = fs ++ [pyStem (safe_filename orig st).1 ++ wavExt] := by
    rw [List.erase_append_right _ h1]
    simp [List.erase_cons]
  refine ⟨?_, ?_, ?_, ?_⟩
  · simp [upload_audio, ho, hw, hc]
  · intro hu
    simp [upload_audio, ho, hw, hc, hu, hadd1, hadd2, herase]
  · intro hu
    simp [upload_audio, ho, hw, hc, hu, hadd1, hadd2]
  · simp [upload_audio, ho, hw, hc]

/-- Witness for `upload_deletes_original`: uploading `voice.m4a` into an
empty store; after a successful unlink only `1.wav` remains. -/
theorem upload_deletes_original_witness :
    ((upload_audio ("voice.m4a".toList) ⟨true, true, some ⟨6, 2⟩, true⟩
        ⟨0, .absent⟩ []).1
      = .ok (pyStem (safe_filename ("voice.m4a".toList) ⟨0, .absent⟩).1 ++ wavExt)
          (((some (WavHeader.mk 6 2)).map get_wav_duration_seconds).map pyRound3))
    ∧ ((upload_audio ("voice.m4a".toList) ⟨true, true, some ⟨6, 2⟩, true⟩
        ⟨0, .absent⟩ []).2.1
      = [] ++ [pyStem (safe_filename ("voice.m4a".toList) ⟨0, .absent⟩).1 ++ wavExt]) := by
  have h := upload_deletes_original ("voice.m4a".toList) ⟨true, true, some ⟨6, 2⟩, true⟩
    ⟨0, .absent⟩ [] (by decide) rfl rfl (by decide) (by decide) (by decide)
  exact ⟨h.1, h.2.1 rfl⟩

/-! ## C1: the JSON-extraction protocol of `try_parse` -/

theorem splitNl_ne_nil (s : List Char) : splitNl s ≠ [] := by
  cases s with
  | nil => simp [splitNl]
  | cons c r =>
    simp only [splitNl]
    split
    · simp
    · split <;> simp

theorem joinNl_splitNl (s : List Char) : joinNl (splitNl s) = s := by
  induction s with
  | nil => rfl
  | cons c r ih =>
    by_cases hc : c = '\n'
    · subst hc
      cases hsp : splitNl r with
      | nil => exact absurd hsp (splitNl_ne_nil r)
      | cons l ls =>
        simp only [splitNl, if_pos rfl, joinNl, hsp]
        rw [hsp] at ih
        simpa [joinNl] using ih
    · cases hsp : splitNl r with
      | nil => exact absurd hsp (splitNl_ne_nil r)
      | cons l ls =>
        simp only [splitNl, if_neg hc, hsp]
        cases ls with
        | nil =>
          simp only [joinNl]
          rw [hsp] at ih
          simp only [joinNl] at ih
          rw [ih]
        | cons l2 ls2 =>
          simp only [joinNl]
          rw [hsp] at ih
          simp only [joinNl] at ih
          simp [ih]

theorem consHead_nil_left {L : List (List Char)} (h : L ≠ []) : consHead [] L = L := by
  cases L with
  | nil => exact absurd rfl h
  | cons l ls => simp [consHead]

theorem splitlinesAux_append_line (l : List Char)
    (hl : ∀ c ∈ l, c ≠ '\n' ∧ c ≠ '\x0d') (rest acc : List Char) :
    splitlinesAux (l ++ rest) acc = splitlinesAux rest (l.reverse ++ acc) := by
  induction l generalizing acc with
  | nil => simp
  | cons c cs ih =>
    have hc := hl c (List.mem_cons_self _ _)
    have hcs : ∀ x ∈ cs, x ≠ '\n' ∧ x ≠ '\x0d' :=
      fun x hx => hl x (List.mem_cons_of_mem _ hx)
    rw [List.cons_append]
    rw [show splitlinesAux (c :: (cs ++ rest)) acc = splitlinesAux (cs ++ rest) (c :: acc) by
      simp [splitlinesAux, hc.1, hc.2]]
    rw [ih hcs]
    simp

theorem splitlinesAux_last_line (l : List Char)
    (hl : ∀ c ∈ l, c ≠ '\n' ∧ c ≠ '\x0d') (hne : l ≠ []) (acc : List Char) :
    splitlinesAux l acc = [acc.reverse ++ l] := by
  have h := splitlinesAux_append_line l hl [] acc
  rw [List.append_nil] at h
  rw [h]
  have : l.reverse ++ acc ≠ [] := by
    simp [hne]
  simp [splitlinesAux, this]

theorem splitlinesAux_body (s : List Char) (t : List Char)
    (hs : '\x0d' ∉ s) (ht : ∀ c ∈ t, c ≠ '\n' ∧ c ≠ '\x0d') (htne : t ≠ []) :
    ∀ acc, splitlinesAux (s ++ '\n' :: t) acc = consHead acc.reverse (splitNl s) ++ [t] := by
  induction s with
  | nil =>
    intro acc
    rw [List.nil_append,
      show splitlinesAux ('\n' :: t) acc = acc.reverse :: splitlinesAux t [] from rfl,
      splitlinesAux_last_line t ht htne]
    simp [splitNl, consHead]
  | cons c cs ih =>
    intro acc
    have hc : c ≠ '\x0d' := fun he => hs (he ▸ List.mem_cons_self _ _)
    have hcs : '\x0d' ∉ cs := fun hm => hs (List.mem_cons_of_mem _ hm)
    by_cases hnl : c = '\n'
    · subst hnl
      rw [List.cons_append,
        show splitlinesAux ('\n' :: (cs ++ '\n' :: t)) acc
          = acc.reverse :: splitlinesAux (cs ++ '\n' :: t) [] from rfl,
        ih hcs []]
      cases hsp : splitNl cs with
      | nil => exact absurd hsp (splitNl_ne_nil cs)
      | cons l ls =>
        simp [splitNl, hsp, consHead]
    · rw [List.cons_append,
        show splitlinesAux (c :: (cs ++ '\n' :: t)) acc
          = splitlinesAux (cs ++ '\n' :: t) (c :: acc) by simp [splitlinesAux, hnl, hc],
        ih hcs (c :: acc)]
      cases hsp : splitNl cs with
      | nil => exact absurd hsp (splitNl_ne_nil cs)
      | cons l ls => simp [splitNl, hsp, consHead, if_neg hnl]

theorem pyStrip_wrap (a b : Char) (l : List Char)
    (ha : isPyWs a = false) (hb : isPyWs b = false) :
    pyStrip (a :: (l ++ [b])) = a :: (l ++ [b]) := by
  have h1 : (a :: (l ++ [b])).dropWhile isPyWs = a :: (l ++ [b]) := by
    simp [List.dropWhile, ha]
  have h2 : (a :: (l ++ [b])).reverse = b :: (l.reverse ++ [a]) := by
    simp
  have h3 : (b :: (l.reverse ++ [a])).dropWhile isPyWs = b :: (l.reverse ++ [a]) := by
    simp [List.dropWhile, hb]
  rw [pyStrip, h1, h2, h3, ← h2, List.reverse_reverse]

theorem fenceBlock_eq_concat (tag body : List Char) :
    fenceBlock tag body = (fenceTicks ++ tag ++ '\n' :: body ++ ['\n']) ++ fenceTicks := by
  simp [fenceBlock]

theorem fenceBlock_wrap_shape (tag body : List Char) :
    fenceBlock tag body
      = '\x60' :: (('\x60' :: '\x60' :: tag ++ '\n' :: body ++ '\n' :: ['\x60', '\x60'])
          ++ ['\x60']) := by
  simp [fenceBlock, fenceTicks]

theorem fenceWrapped_fenceBlock (tag body : List Char) :
    fenceWrapped (fenceBlock tag body) = true := by
  have htake : (fenceBlock tag body).take 3 = fenceTicks := by
    simp [fenceBlock, fenceTicks]
  have hlen : (fenceBlock tag body).length - 3
      = (fenceTicks ++ tag ++ '\n' :: body ++ ['\n']).length := by
    rw [fenceBlock_eq_concat]
    simp [fenceTicks]
    omega
  have hdrop : (fenceBlock tag body).drop ((fenceBlock tag body).length - 3)
      = fenceTicks := by
    rw [hlen]
    rw [fenceBlock_eq_concat]
    exact List.drop_left _ _
  simp [fenceWrapped, htake, hdrop]

theorem pyStrip_fenceBlock (tag body : List Char) :
    pyStrip (fenceBlock tag body) = fenceBlock tag body := by
  rw [fenceBlock_wrap_shape]
  exact pyStrip_wrap _ _ _ (by decide) (by decide)

theorem splitlinesPy_fenceBlock (tag body : List Char)
    (htag : ∀ c ∈ tag, c ≠ '\n' ∧ c ≠ '\x0d') (hbody : '\x0d' ∉ body) :
    splitlinesPy (fenceBlock tag body)
      = (fenceTicks ++ tag) :: (splitNl body ++ [fenceTicks]) := by
  have hline : ∀ c ∈ fenceTicks ++ tag, c ≠ '\n' ∧ c ≠ '\x0d' := by
    intro c hc
    rcases List.mem_append.mp hc with hc | hc
    · fin_cases hc <;> exact ⟨by decide, by decide⟩
    · exact htag c hc
  have hticks : ∀ c ∈ fenceTicks, c ≠ '\n' ∧ c ≠ '\x0d' := by
    intro c hc
    fin_cases hc <;> exact ⟨by decide, by decide⟩
  have hshape : fenceBlock tag body
      = (fenceTicks ++ tag) ++ '\n' :: (body ++ '\n' :: fenceTicks) := by
    simp [fenceBlock]
  have hstep : ∀ acc : List Char,
      splitlinesAux ('\n' :: (body ++ '\n' :: fenceTicks)) acc
        = acc.reverse :: splitlinesAux (body ++ '\n' :: fenceTicks) [] :=
    fun acc => rfl
  rw [splitlinesPy, hshape, splitlinesAux_append_line _ hline, hstep,
    splitlinesAux_body body fenceTicks hbody hticks (by simp [fenceTicks]) []]
  simp [consHead_nil_left (splitNl_ne_nil body)]

theorem unfenced_fenceBlock (tag body : List Char)
    (htag : ∀ c ∈ tag, c ≠ '\n' ∧ c ≠ '\x0d') (hbody : '\x0d' ∉ body) :
    unfenced (fenceBlock tag body) = body := by
  rw [unfenced]
  simp only [pyStrip_fenceBlock, fenceWrapped_fenceBlock, if_pos,
    splitlinesPy_fenceBlock tag body htag hbody]
  rw [List.drop_one, List.tail_cons, List.dropLast_concat]
  exact joinNl_splitNl body

theorem dropWhile_append_head {p : Char → Bool} (a : List Char) {c : Char}
    (b : List Char) (hc : p c = false) :
    (a ++ c :: b).dropWhile p = a.dropWhile p ++ c :: b := by
  induction a with
  | nil => simp [List.dropWhile, hc]
  | cons x xs ih =>
    by_cases hx : p x
    · simp [List.dropWhile, hx, ih]
    · simp [List.dropWhile, hx]

theorem not_mem_dropWhile {c : Char} {p : Char → Bool} {l : List Char}
    (h : c ∉ l) : c ∉ l.dropWhile p := by
  induction l with
  | nil => simp
  | cons x xs ih =>
    have hx : c ∉ xs := fun hm => h (List.mem_cons_of_mem _ hm)
    by_cases hp : p x
    · simp [List.dropWhile, hp]
      exact ih hx
    · simp [List.dropWhile, hp]
      exact ⟨fun he => h (he ▸ List.mem_cons_self _ _), hx⟩

theorem pyStrip_decomp (pre mid post : List Char) :
    pyStrip (pre ++ ('\x7b' :: mid ++ ['\x7d']) ++ post)
      = pre.dropWhile isPyWs ++ ('\x7b' :: mid ++ ['\x7d'])
          ++ (post.reverse.dropWhile isPyWs).reverse := by
  have h1 : (pre ++ ('\x7b' :: mid ++ ['\x7d']) ++ post).dropWhile isPyWs
      = pre.dropWhile isPyWs ++ '\x7b' :: (mid ++ ['\x7d'] ++ post) := by
    rw [show pre ++ ('\x7b' :: mid ++ ['\x7d']) ++ post
        = pre ++ '\x7b' :: (mid ++ ['\x7d'] ++ post) by simp]
    exact dropWhile_append_head pre _ (by decide)
  have h2 : (pre.dropWhile isPyWs ++ '\x7b' :: (mid ++ ['\x7d'] ++ post)).reverse
      = post.reverse ++ '\x7d' :: (mid.reverse ++ '\x7b' :: (pre.dropWhile isPyWs).reverse) := by
    simp
  have h3 : (post.reverse ++ '\x7d'
        :: (mid.reverse ++ '\x7b' :: (pre.dropWhile isPyWs).reverse)).dropWhile isPyWs
      = post.reverse.dropWhile isPyWs
          ++ '\x7d' :: (mid.reverse ++ '\x7b' :: (pre.dropWhile isPyWs).reverse) :=
    dropWhile_append_head _ _ (by decide)
  rw [pyStrip, h1, h2, h3]
  simp

theorem pyFind_append_of_not_mem {c : Char} {a : List Char} (h : c ∉ a) (b : List Char) :
    pyFind c (a ++ b) = (pyFind c b).map (a.length + ·) := by
  induction a with
  | nil =>
    cases hf : pyFind c b <;> simp [hf]
  | cons x xs ih =>
    have hx : x ≠ c := fun he => h (he ▸ List.mem_cons_self _ _)
    have hxs : c ∉ xs := fun hm => h (List.mem_cons_of_mem _ hm)
    rw [List.cons_append]
    rw [show pyFind c (x :: (xs ++ b)) = (pyFind c (xs ++ b)).map (· + 1) by
      simp [pyFind, hx]]
    rw [ih hxs]
    cases hf : pyFind c b <;> simp [hf]
    omega

theorem pyFind_cons_self (c : Char) (r : List Char) : pyFind c (c :: r) = some 0 := by
  simp [pyFind]

theorem braceSlice_decomp (pre mid post : List Char)
    (hpre : '\x7b' ∉ pre) (hpost : '\x7d' ∉ post) :
    braceSlice (pre ++ ('\x7b' :: mid ++ ['\x7d']) ++ post)
      = some ('\x7b' :: mid ++ ['\x7d']) := by
  have hfind : pyFind '\x7b' (pre ++ ('\x7b' :: mid ++ ['\x7d']) ++ post)
      = some pre.length := by
    rw [show pre ++ ('\x7b' :: mid ++ ['\x7d']) ++ post
        = pre ++ '\x7b' :: (mid ++ ['\x7d'] ++ post) by simp]
    rw [pyFind_append_of_not_mem hpre, pyFind_cons_self]
    simp
  have hrev : (pre ++ ('\x7b' :: mid ++ ['\x7d']) ++ post).reverse
      = post.reverse ++ '\x7d' :: (mid.reverse ++ '\x7b' :: pre.reverse) := by
    simp
  have hrfind : pyRFind '\x7d' (pre ++ ('\x7b' :: mid ++ ['\x7d']) ++ post)
      = some (pre.length + mid.length + 1) := by
    rw [pyRFind, hrev, pyFind_append_of_not_mem (by simpa using hpost),
      pyFind_cons_self]
    simp
    omega
  rw [braceSlice, hfind, hrfind]
  dsimp only
  rw [if_pos (by omega)]
  congr 1
  rw [show pre ++ ('\x7b' :: mid ++ ['\x7d']) ++ post
      = pre ++ (('\x7b' :: mid ++ ['\x7d']) ++ post) by simp,
    List.drop_left]
  rw [show pre.length + mid.length + 1 + 1 - pre.length
      = ('\x7b' :: mid ++ ['\x7d']).length by simp; omega]
  exact List.take_left _ _

/-- C1: `try_parse` follows the response-extraction protocol.
(a) An input that is valid JSON parses directly, and the same input
wrapped in a fenced code block has its first and last line stripped and
yields the same object as the unwrapped input.  (b) When the direct parse
of the stripped text fails, the substring from the first `{` to the last
`}` is parsed: prose before (without `{`) and after (without `}`) a
single valid JSON object is discarded and that object is recovered.
(c) When neither the direct parse nor the brace substring parses, the
result is unparsed (`none`). -/
theorem try_parse_protocol :
    (∀ tag body v, (∀ c ∈ tag, c ≠ '\n' ∧ c ≠ '\x0d') → '\x0d' ∉ body →
      pyStrip body = body → fenceWrapped body = false → json_loads body = some v →
      try_parse body = some v ∧ try_parse (fenceBlock tag body) = some v)
    ∧ (∀ pre mid post v, '\x7b' ∉ pre → '\x7d' ∉ post →
      json_loads ('\x7b' :: mid ++ ['\x7d']) = some v →
      json_loads (pyStrip (pre ++ ('\x7b' :: mid ++ ['\x7d']) ++ post)) = none →
      fenceWrapped (pyStrip (pre ++ ('\x7b' :: mid ++ ['\x7d']) ++ post)) = false →
      try_parse (pre ++ ('\x7b' :: mid ++ ['\x7d']) ++ post) = some v)
    ∧ (∀ s, json_loads (unfenced s) = none →
      (∀ sub, braceSlice (unfenced s) = some sub → json_loads sub = none) →
      try_parse s = none) := by
  refine ⟨?_, ?_, ?_⟩
  · intro tag body v htag hbody hstrip hfence hparse
    have hne : body ≠ [] := by
      rintro rfl
      rw [show json_loads ([] : List Char) = none from rfl] at hparse
      exact Option.noConfusion hparse
    have hub : unfenced body = body := by
      rw [unfenced]
      simp only [hstrip, hfence, Bool.false_eq_true, if_false]
    constructor
    · rw [try_parse, if_neg hne, hub, hparse]
    · have hfne : fenceBlock tag body ≠ [] := by
        simp [fenceBlock, fenceTicks]
      rw [try_parse, if_neg hfne, unfenced_fenceBlock tag body htag hbody, hparse]
  · intro pre mid post v hpre hpost hcore hdirect hfence
    have hne : pre ++ ('\x7b' :: mid ++ ['\x7d']) ++ post ≠ [] := by
      simp
    have hu : unfenced (pre ++ ('\x7b' :: mid ++ ['\x7d']) ++ post)
        = pyStrip (pre ++ ('\x7b' :: mid ++ ['\x7d']) ++ post) := by
      rw [unfenced]
      simp only [hfence, Bool.false_eq_true, if_false]
    have hpre' : '\x7b' ∉ pre.dropWhile isPyWs := not_mem_dropWhile hpre
    have hpost' : '\x7d' ∉ (post.reverse.dropWhile isPyWs).reverse := by
      rw [List.mem_reverse]
      exact not_mem_dropWhile (by simpa using hpost)
    rw [try_parse, if_neg hne, hu, hdirect]
    dsimp only
    rw [pyStrip_decomp pre mid post, braceSlice_decomp _ _ _ hpre' hpost']
    dsimp only
    exact hcore
  · intro s hdirect hbrace
    by_cases hs : s = []
    · rw [hs]
      rfl
    · rw [try_parse, if_neg hs, hdirect]
      dsimp only
      cases hb : braceSlice (unfenced s) with
      | none => rfl
      | some sub =>
        dsimp only
        exact hbrace sub hb

theorem try_parse_protocol_witness :
    (try_parse ['\x7b', '"', 'a', '"', ':', ' ', '1', '\x7d']
        = some (.jobj [(['a'], .jint 1)])
     ∧ try_parse (fenceBlock ("json".toList) ['\x7b', '"', 'a', '"', ':', ' ', '1', '\x7d'])
        = some (.jobj [(['a'], .jint 1)]))
    ∧ try_parse ("Sure! Here is the JSON:\n".toList
        ++ ('\x7b' :: ['"', 'a', '"', ':', '1'] ++ ['\x7d'])
        ++ "\nHope this helps.".toList)
      = some (.jobj [(['a'], .jint 1)])
    ∧ try_parse ("no json here".toList) = none
    ∧ try_parse ("sad \x7b face :( \x7d oh no".toList) = none := by
  refine ⟨?_, ?_, ?_, ?_⟩
  · exact try_parse_protocol.1 ("json".toList) ['\x7b', '"', 'a', '"', ':', ' ', '1', '\x7d']
      (.jobj [(['a'], .jint 1)]) (by decide) (by decide) (by decide) (by decide) rfl
  · exact try_parse_protocol.2.1 ("Sure! Here is the JSON:\n".toList)
      ['"', 'a', '"', ':', '1'] ("\nHope this helps.".toList)
      (.jobj [(['a'], .jint 1)]) (by decide) (by decide) rfl rfl (by decide)
  · exact try_parse_protocol.2.2 ("no json here".toList) rfl (fun sub h => nomatch h)
  · refine try_parse_protocol.2.2 ("sad \x7b face :( \x7d oh no".toList) rfl ?_
    intro sub h
    have h' : some ("\x7b face :( \x7d".toList) = some sub := h
    rw [← Option.some.inj h']
    rfl

end AudioPipeline
